import Mathlib

/-!
Verification of `flexget/utils/database.py`: the recursive sanitizer
`only_builtins` behind `safe_pickle_synonym`, the `pipe_list_synonym` and
`text_date_synonym` virtual attributes, and the `CaseInsensitiveWord` and
`QualityComparator` comparators.

Python values are shallowly embedded as the inductive `PyVal`; Python
exceptions raised and caught by this module (`TypeError`, `ValueError`)
are the type `PyErr`; fallible operations return `Except PyErr`.
Python text is modelled as `List Char` where character-level behaviour
matters (lower-casing, strip/split/join, date parsing).
-/

namespace FlexgetDB

/-- The supported builtin primitive kinds of `only_builtins`:
`supported_types = [str, unicode, int, float, bool, datetime]`.
`str` and `unicode` are both text; a float is carried opaquely (no
arithmetic is ever performed on it here). A datetime is carried as a
date-time record. -/
inductive Prim where
| str (s : String)
| int (n : Int)
| float (bits : Int)
| bool (b : Bool)
| datetime (year month day : Nat)
deriving DecidableEq

/-- A Python runtime value as seen by `only_builtins`:
either a value whose exact type is a supported builtin (`prim`),
an instance of a proper subclass of one of the supported builtins
(`subPrim p` — coercing it with `s_type(item)` yields `prim p`),
a dict / list / tuple / set, or an instance of some other class
(`obj`), which subclasses no builtin. -/
inductive PyVal where
| prim (p : Prim)
| subPrim (p : Prim)
| obj (cls : String)
| list (xs : List PyVal)
| tuple (xs : List PyVal)
| set (xs : List PyVal)
| dict (es : List (PyVal × PyVal))

/-- The two Python exception types raised or caught in this module. -/
inductive PyErr where
| typeError
| valueError
deriving DecidableEq

mutual

/-- `only_builtins(item)` from `safe_pickle_synonym`:
exact supported type is returned unchanged; a dict is rebuilt entry by
entry with `except TypeError: continue` around each value; a list,
tuple or set is rebuilt element by element with `except ValueError:
continue` around each element; an instance of a subclass of a supported
type is coerced to the base type; anything else raises
`TypeError('%r is not a subclass of a builtin python type.')`. -/
def only_builtins : PyVal → Except PyErr PyVal
| .prim p => .ok (.prim p)
| .dict es =>
  match obDict es with
  | .ok r => .ok (.dict r)
  | .error e => .error e
| .list xs =>
  match obSeq xs with
  | .ok r => .ok (.list r)
  | .error e => .error e
| .tuple xs =>
  match obSeq xs with
  | .ok r => .ok (.tuple r)
  | .error e => .error e
| .set xs =>
  match obSeq xs with
  | .ok r => .ok (.set r)
  | .error e => .error e
| .subPrim p => .ok (.prim p)
| .obj _ => .error .typeError

/-- The dict loop of `only_builtins`: `result[key] = only_builtins(value)`
with `except TypeError: continue`; any other exception propagates. The
key is stored unchanged. -/
def obDict : List (PyVal × PyVal) → Except PyErr (List (PyVal × PyVal))
| [] => .ok []
| (k, v) :: rest =>
  match only_builtins v with
  | .ok v2 =>
    match obDict rest with
    | .ok r => .ok ((k, v2) :: r)
    | .error e => .error e
  | .error .typeError => obDict rest
  | .error .valueError => .error .valueError

/-- The list/tuple/set loop of `only_builtins`:
`result.append(only_builtins(value))` with `except ValueError: continue`;
any other exception propagates. -/
def obSeq : List PyVal → Except PyErr (List PyVal)
| [] => .ok []
| v :: rest =>
  match only_builtins v with
  | .ok v2 =>
    match obSeq rest with
    | .ok r => .ok (v2 :: r)
    | .error e => .error e
  | .error .valueError => obSeq rest
  | .error .typeError => .error .typeError

end

/-- The `safe_pickle_synonym` setter: `setattr(self, name, only_builtins(entry))`.
The argument of `setattr` is evaluated first, so when `only_builtins`
raises, the stored column is left untouched and the exception reaches
the caller. The pair returned is (stored column after the call,
exception raised if any). -/
def safe_pickle_setter (stored : Option PyVal) (entry : PyVal) :
    Option PyVal × Option PyErr :=
  match only_builtins entry with
  | .ok v => (some v, none)
  | .error e => (stored, some e)

/-- The entries that survive the dict branch of `only_builtins`: an entry
is kept, key unchanged, exactly when sanitizing its value succeeds, and
the kept value is the sanitized one. -/
def dropFailedEntries (es : List (PyVal × PyVal)) : List (PyVal × PyVal) :=
  es.filterMap fun kv =>
    match only_builtins kv.2 with
    | .ok v2 => some (kv.1, v2)
    | .error _ => none

mutual

/-- Every node of the tree, mapping keys excepted, is an exact builtin:
a supported primitive, or a list / tuple / set / dict of such trees.
Mapping keys are left unconstrained. -/
def builtinsOnlyTree : PyVal → Bool
| .prim _ => true
| .subPrim _ => false
| .obj _ => false
| .list xs => builtinsOnlyList xs
| .tuple xs => builtinsOnlyList xs
| .set xs => builtinsOnlyList xs
| .dict es => builtinsOnlyEntries es

def builtinsOnlyList : List PyVal → Bool
| [] => true
| x :: xs => builtinsOnlyTree x && builtinsOnlyList xs

def builtinsOnlyEntries : List (PyVal × PyVal) → Bool
| [] => true
| kv :: es => builtinsOnlyTree kv.2 && builtinsOnlyEntries es

end

/-- Whether a node is a text node. -/
def isTextNode : PyVal → Bool
| .prim (.str _) => true
| _ => false

mutual

/-- The spec's words for `SanitizedValue`: every node is text, integer,
floating-point, boolean, timestamp, ordered-sequence-of(SanitizedValue),
set-of(SanitizedValue), or mapping-from-TEXT-to(SanitizedValue) — so in
particular every mapping key is a text node. -/
def specSanitizedTree : PyVal → Bool
| .prim _ => true
| .subPrim _ => false
| .obj _ => false
| .list xs => specSanitizedList xs
| .tuple xs => specSanitizedList xs
| .set xs => specSanitizedList xs
| .dict es => specSanitizedEntries es

def specSanitizedList : List PyVal → Bool
| [] => true
| x :: xs => specSanitizedTree x && specSanitizedList xs

def specSanitizedEntries : List (PyVal × PyVal) → Bool
| [] => true
| kv :: es => isTextNode kv.1 && specSanitizedTree kv.2 && specSanitizedEntries es

end

/-! ## pipe_list_synonym -/

/-- Python text, at character granularity. -/
abbrev PyStr := List Char

/-- Python `s.split(sep)` for a one-character separator `c`:
splitting the empty text yields `[[]]`; consecutive separators yield
empty parts. -/
def splitChar (c : Char) : List Char → List (List Char)
| [] => [[]]
| x :: xs =>
  match splitChar c xs with
  | [] => [[]]
  | h :: t => if x = c then [] :: h :: t else (x :: h) :: t

/-- Python `s.strip(c)` for a one-character strip set: remove every
leading and every trailing occurrence of `c`. -/
def stripChar (c : Char) (s : List Char) : List Char :=
  ((s.dropWhile (· = c)).reverse.dropWhile (· = c)).reverse

/-- Python `c.join(xs)` for a one-character separator. -/
def pyJoin (c : Char) (xs : List PyStr) : PyStr :=
  (xs.intersperse [c]).flatten

/-- The `pipe_list_synonym` getter: `attr.strip('|').split('|')` when the
raw attribute is truthy (not None and not the empty text), and an
implicit `None` otherwise. -/
def pipe_list_getter (raw : Option PyStr) : Option (List PyStr) :=
  match raw with
  | some s => if s = [] then none else some (splitChar '|' (stripChar '|' s))
  | none => none

/-- Argument of the `pipe_list_synonym` setter: a single text value
(`basestring`) or a sequence of text values. -/
inductive PipeListInput where
| text (s : PyStr)
| seq (xs : List PyStr)

/-- The `pipe_list_synonym` setter: a `basestring` is stored verbatim;
any other value is stored as `'|'.join(value)`. -/
def pipe_list_setter : PipeListInput → PyStr
| .text s => s
| .seq xs => pyJoin '|' xs

/-! ## text_date_synonym -/

/-- A naive Python `datetime` as produced by
`datetime.strptime(value, '%Y-%m-%d')` (time fields are zero). -/
structure PyDateTime where
  year : Nat
  month : Nat
  day : Nat
deriving DecidableEq

/-- Numeric value of a digit string. -/
def digitsVal (l : List Char) : Nat :=
  l.foldl (fun acc c => acc * 10 + (c.toNat - 48)) 0

/-- All characters are ASCII digits. -/
def allDigits (l : List Char) : Bool :=
  l.all fun c => c.isDigit

/-- The `%m` field regex of CPython strptime, `1[0-2]|0[1-9]|[1-9]`:
a two-digit group valued 1..12 (so not `00`) or a one-digit group
valued 1..9. -/
def monthField (ms : List Char) : Bool :=
  allDigits ms &&
    ((ms.length == 2 && 1 ≤ digitsVal ms && digitsVal ms ≤ 12) ||
     (ms.length == 1 && 1 ≤ digitsVal ms))

/-- The `%d` field regex of CPython strptime, `3[01]|[12]\d|0[1-9]|[1-9]`:
a two-digit group valued 1..31 (so not `00`) or a one-digit group
valued 1..9. -/
def dayField (ds : List Char) : Bool :=
  allDigits ds &&
    ((ds.length == 2 && 1 ≤ digitsVal ds && digitsVal ds ≤ 31) ||
     (ds.length == 1 && 1 ≤ digitsVal ds))

/-- Python's calendar: days in a month, with the Gregorian leap rule
used by `datetime`. -/
def pyDaysInMonth (y m : Nat) : Nat :=
  if m = 2 then
    if y % 4 = 0 && (y % 100 != 0 || y % 400 = 0) then 29 else 28
  else if m = 4 || m = 6 || m = 9 || m = 11 then 30 else 31

/-- `datetime.strptime(s, '%Y-%m-%d')`: the input must be exactly a
four-digit year, `-`, a month field, `-`, a day field (the `-` in the
format is literal and digits never match `-`, so the three groups are
the dash-separated parts of the input); the resulting triple must be an
in-range `datetime` (year at least 1, day within the month). `none`
models the `ValueError` strptime raises otherwise. -/
def strptimeYmd (s : List Char) : Option PyDateTime :=
  match splitChar '-' s with
  | [ys, ms, ds] =>
    if ys.length == 4 && allDigits ys && monthField ms && dayField ds then
      let y := digitsVal ys
      let m := digitsVal ms
      let d := digitsVal ds
      if 1 ≤ y && d ≤ pyDaysInMonth y m then some ⟨y, m, d⟩ else none
    else none
  | _ => none

/-- Argument of the `text_date_synonym` setter: a `basestring` or an
already-parsed datetime. -/
inductive DateSetInput where
| text (s : PyStr)
| dt (d : PyDateTime)

/-- The `text_date_synonym` setter: text is parsed with
`datetime.strptime(value, '%Y-%m-%d')` (its `ValueError` propagates);
anything else — in particular a datetime — is stored unchanged. -/
def text_date_setter : DateSetInput → Except PyErr PyDateTime
| .text s =>
  match strptimeYmd s with
  | some d => .ok d
  | none => .error .valueError
| .dt d => .ok d

/-- The `text_date_synonym` getter returns the raw stored value
unchanged. -/
def text_date_getter (stored : PyDateTime) : PyDateTime := stored

/-- The spec's words for the exact `YYYY-MM-DD` pattern: four digits,
a dash, two digits, a dash, two digits. -/
def matchesExactYMD : List Char → Bool
| [y1, y2, y3, y4, c1, m1, m2, c2, d1, d2] =>
  y1.isDigit && y2.isDigit && y3.isDigit && y4.isDigit && c1 = '-' &&
    m1.isDigit && m2.isDigit && c2 = '-' && d1.isDigit && d2.isDigit
| _ => false

/-! ## CaseInsensitiveWord -/

/-- Python `s.lower()`. -/
def pyLower (s : PyStr) : PyStr := s.map Char.toLower

/-- The value held in `CaseInsensitiveWord.word`: either a concrete
(already lower-cased) text, or the deferred store expression
`func.lower(column)`. -/
inductive WordExpr where
| lit (s : PyStr)
| lowerCol (column : String)
deriving DecidableEq

/-- What the `CaseInsensitiveWord` constructor may receive: a
`basestring`, another `CaseInsensitiveWord`, or a store-side column
reference. -/
inductive WordInput where
| text (s : PyStr)
| ciw (word : WordExpr)
| column (c : String)

/-- A `CaseInsensitiveWord`, holding its `word` value. -/
structure CaseInsensitiveWord where
  word : WordExpr
deriving DecidableEq

/-- The `CaseInsensitiveWord` constructor: a `basestring` is
lower-cased, another instance's `word` is copied, and anything else is
wrapped in the deferred expression `func.lower(word)`. -/
def CaseInsensitiveWord.make : WordInput → CaseInsensitiveWord
| .text s => ⟨.lit (pyLower s)⟩
| .ciw w => ⟨w⟩
| .column c => ⟨.lowerCol c⟩

/-- `CaseInsensitiveWord.operate(op, other)`: an operand that is not a
`CaseInsensitiveWord` is coerced into one, and `op` is applied to the
two `word` values. -/
def CaseInsensitiveWord.operate {α : Type} (op : WordExpr → WordExpr → α)
    (self : CaseInsensitiveWord) (other : WordInput) : α :=
  let o : CaseInsensitiveWord :=
    match other with
    | .ciw w => ⟨w⟩
    | x => CaseInsensitiveWord.make x
  op self.word o.word

/-- Equality of two word values, the `op` of `==` on concrete operands. -/
def wordBEq (a b : WordExpr) : Bool := a == b

/-! ## QualityComparator -/

/-- A quality: a textual name and its numeric rank (`value`).
Modelled from the spec: `flexget.utils.qualities` is not under `src/`;
the spec describes the registry as a set of name+rank pairs. -/
structure Quality where
  name : String
  value : Int
deriving DecidableEq

/-- Modelled from the spec: `qualities.get(name)` — registry lookup of a
quality by name, not-found when no entry carries the name. The registry
itself is passed explicitly as a list of name+rank pairs. -/
def qualities_get (reg : List Quality) (name : String) : Option Quality :=
  reg.find? fun q => q.name == name

/-- Modelled from the spec: `qualities.all()` — every known quality. -/
def qualities_all (reg : List Quality) : List Quality := reg

/-- A store-side multi-branch conditional, `case(value=..., whens=...,
else_=...)`: a list of (stored text, result) branches plus a default. -/
structure CaseExpr where
  whens : List (String × Int)
  else_ : Int
deriving DecidableEq

/-- Evaluation of the multi-branch conditional by the store at a row
whose compared column holds `stored`: the branch whose key equals
`stored`, or the default. -/
def CaseExpr.eval (e : CaseExpr) (stored : String) : Int :=
  match e.whens.find? fun p => p.1 == stored with
  | some p => p.2
  | none => e.else_

/-- The ranking expression `QualityComparator.operate` builds:
`case(value=self.__clause_element__(), whens=dict((q.name, q.value) for q
in qualities.all()), else_=0)`. -/
def quality_case (reg : List Quality) : CaseExpr :=
  ⟨(qualities_all reg).map fun q => (q.name, q.value), 0⟩

/-- The `other` operand of `QualityComparator.operate`: an object with a
`value` attribute (a quality), a `basestring`, or anything else. -/
inductive QualOperand where
| qualObj (q : Quality)
| text (s : String)
| otherObj

/-- `QualityComparator.operate(op, other)`: resolve `other` to a numeric
rank — its `value` attribute if it has one, else a registry lookup of
the text raising `ValueError('%s is not a valid quality')` when not
found, else `TypeError('%r cannot be compared to a quality')` — and
apply `op` between the ranking expression and the resolved rank. -/
def QualityComparator.operate (α : Type) (reg : List Quality)
    (op : CaseExpr → Int → α) (other : QualOperand) : Except PyErr α :=
  match other with
  | .qualObj q => .ok (op (quality_case reg) q.value)
  | .text s =>
    match qualities_get reg s with
    | some q => .ok (op (quality_case reg) q.value)
    | none => .error .valueError
  | .otherObj => .error .typeError

/-! ## Theorems: the sanitizer -/

/-- Structural induction over `PyVal` with member-wise hypotheses for
the containers. -/
theorem pyval_induction {motive : PyVal → Prop}
    (hPrim : ∀ p, motive (.prim p))
    (hSub : ∀ p, motive (.subPrim p))
    (hObj : ∀ c, motive (.obj c))
    (hList : ∀ xs, (∀ x ∈ xs, motive x) → motive (.list xs))
    (hTuple : ∀ xs, (∀ x ∈ xs, motive x) → motive (.tuple xs))
    (hSet : ∀ xs, (∀ x ∈ xs, motive x) → motive (.set xs))
    (hDict : ∀ es, (∀ kv ∈ es, motive kv.2) → motive (.dict es)) :
    ∀ v, motive v
| .prim p => hPrim p
| .subPrim p => hSub p
| .obj c => hObj c
| .list xs => hList xs fun x hx =>
    pyval_induction hPrim hSub hObj hList hTuple hSet hDict x
| .tuple xs => hTuple xs fun x hx =>
    pyval_induction hPrim hSub hObj hList hTuple hSet hDict x
| .set xs => hSet xs fun x hx =>
    pyval_induction hPrim hSub hObj hList hTuple hSet hDict x
| .dict es => hDict es fun kv hkv =>
    pyval_induction hPrim hSub hObj hList hTuple hSet hDict kv.2
termination_by v => sizeOf v
decreasing_by
all_goals simp_wf
· have := List.sizeOf_lt_of_mem hx; omega
· have := List.sizeOf_lt_of_mem hx; omega
· have := List.sizeOf_lt_of_mem hx; omega
· have h1 := List.sizeOf_lt_of_mem hkv
  obtain ⟨a, b⟩ := kv
  simp at h1 ⊢
  omega

/-- The sequence loop catches only `ValueError`, and the only error it
can produce or pass through is the `TypeError` of a failing element, so
it never results in a `ValueError`. -/
theorem obSeq_ne_valueError (xs : List PyVal) :
    obSeq xs ≠ .error .valueError := by
  induction xs with
  | nil => simp [obSeq]
  | cons v rest ih =>
    rw [obSeq]
    cases h : only_builtins v with
    | ok v2 =>
      cases h2 : obSeq rest with
      | ok r => simp
      | error e =>
        simp only []
        intro hc
        injection hc with he
        exact ih (h2.trans (by rw [he]))
    | error e =>
      cases e with
      | typeError => simp
      | valueError => simpa using ih

/-- As long as no entry value fails with `ValueError`, the dict loop
succeeds and keeps exactly the entries whose values sanitize, key
unchanged, value sanitized. -/
theorem obDict_eq_dropFailed (es : List (PyVal × PyVal))
    (h : ∀ kv ∈ es, only_builtins kv.2 ≠ .error .valueError) :
    obDict es = .ok (dropFailedEntries es) := by
  induction es with
  | nil => simp [obDict, dropFailedEntries]
  | cons kv rest ih =>
    obtain ⟨k, v⟩ := kv
    have hrest : obDict rest = .ok (dropFailedEntries rest) :=
      ih fun kv hkv => h kv (List.mem_cons_of_mem _ hkv)
    rw [obDict]
    cases hv : only_builtins v with
    | ok v2 =>
      rw [hrest]
      simp [dropFailedEntries, List.filterMap_cons, hv]
    | error e =>
      cases e with
      | typeError =>
        rw [hrest]
        simp [dropFailedEntries, List.filterMap_cons, hv]
      | valueError =>
        exact absurd hv (h (k, v) (List.mem_cons_self _ _))

/-- `only_builtins` never raises `ValueError`: the only raise statement
in its body raises `TypeError`. -/
theorem only_builtins_ne_valueError :
    ∀ v : PyVal, only_builtins v ≠ .error .valueError := by
  intro v
  induction v using pyval_induction with
  | hPrim p => simp [only_builtins]
  | hSub p => simp [only_builtins]
  | hObj c => simp [only_builtins]
  | hList xs ih =>
    rw [only_builtins]
    cases h : obSeq xs with
    | ok r => simp
    | error e => simpa using fun he => obSeq_ne_valueError xs (h.trans (by rw [he]))
  | hTuple xs ih =>
    rw [only_builtins]
    cases h : obSeq xs with
    | ok r => simp
    | error e => simpa using fun he => obSeq_ne_valueError xs (h.trans (by rw [he]))
  | hSet xs ih =>
    rw [only_builtins]
    cases h : obSeq xs with
    | ok r => simp
    | error e => simpa using fun he => obSeq_ne_valueError xs (h.trans (by rw [he]))
  | hDict es ih =>
    rw [only_builtins]
    rw [obDict_eq_dropFailed es ih]
    simp

theorem builtinsOnlyList_iff (ys : List PyVal) :
    builtinsOnlyList ys = true ↔ ∀ y ∈ ys, builtinsOnlyTree y = true := by
  induction ys with
  | nil => simp [builtinsOnlyList]
  | cons y ys ih => simp [builtinsOnlyList, ih]

theorem builtinsOnlyEntries_iff (es : List (PyVal × PyVal)) :
    builtinsOnlyEntries es = true ↔ ∀ kv ∈ es, builtinsOnlyTree kv.2 = true := by
  induction es with
  | nil => simp [builtinsOnlyEntries]
  | cons kv es ih => simp [builtinsOnlyEntries, ih]

/-- Every element of a successfully sanitized sequence is the
sanitization of some input element. -/
theorem obSeq_ok_mem (xs ys : List PyVal) (h : obSeq xs = .ok ys) :
    ∀ y ∈ ys, ∃ x ∈ xs, only_builtins x = .ok y := by
  induction xs generalizing ys with
  | nil =>
    rw [obSeq] at h
    injection h with h
    subst h
    simp
  | cons v rest ih =>
    rw [obSeq] at h
    cases hv : only_builtins v with
    | ok v2 =>
      rw [hv] at h
      cases h2 : obSeq rest with
      | ok r =>
        rw [h2] at h
        simp at h
        subst h
        intro y hy
        rcases List.mem_cons.mp hy with rfl | hy
        · exact ⟨v, List.mem_cons_self _ _, hv⟩
        · obtain ⟨x, hx, hox⟩ := ih r h2 y hy
          exact ⟨x, List.mem_cons_of_mem _ hx, hox⟩
      | error e =>
        rw [h2] at h
        simp at h
    | error e =>
      rw [hv] at h
      cases e with
      | valueError =>
        intro y hy
        obtain ⟨x, hx, hox⟩ := ih ys h y hy
        exact ⟨x, List.mem_cons_of_mem _ hx, hox⟩
      | typeError => simp at h

/-- C1 (amended): for every input on which `only_builtins` succeeds,
every node of the returned value tree other than a mapping key is one
of the closed set of kinds — exact text, integer, floating-point,
boolean, timestamp, ordered sequence, set, or mapping. Mapping keys are
carried over from the input unchanged and are not constrained: the code
never sanitizes keys, so the original claim's "mapping whose keys are
text" part fails (see the counterexample). -/
theorem sanitize_result_builtins_only :
    ∀ v r, only_builtins v = .ok r → builtinsOnlyTree r = true := by
  intro v
  induction v using pyval_induction with
  | hPrim p =>
    intro r h
    rw [only_builtins] at h
    injection h with h
    subst h
    simp [builtinsOnlyTree]
  | hSub p =>
    intro r h
    rw [only_builtins] at h
    injection h with h
    subst h
    simp [builtinsOnlyTree]
  | hObj c =>
    intro r h
    rw [only_builtins] at h
    simp at h
  | hList xs ih =>
    intro r h
    rw [only_builtins] at h
    cases hs : obSeq xs with
    | ok ys =>
      rw [hs] at h
      injection h with h
      subst h
      rw [builtinsOnlyTree, builtinsOnlyList_iff]
      intro y hy
      obtain ⟨x, hx, hox⟩ := obSeq_ok_mem xs ys hs y hy
      exact ih x hx y hox
    | error e =>
      rw [hs] at h
      simp at h
  | hTuple xs ih =>
    intro r h
    rw [only_builtins] at h
    cases hs : obSeq xs with
    | ok ys =>
      rw [hs] at h
      injection h with h
      subst h
      rw [builtinsOnlyTree, builtinsOnlyList_iff]
      intro y hy
      obtain ⟨x, hx, hox⟩ := obSeq_ok_mem xs ys hs y hy
      exact ih x hx y hox
    | error e =>
      rw [hs] at h
      simp at h
  | hSet xs ih =>
    intro r h
    rw [only_builtins] at h
    cases hs : obSeq xs with
    | ok ys =>
      rw [hs] at h
      injection h with h
      subst h
      rw [builtinsOnlyTree, builtinsOnlyList_iff]
      intro y hy
      obtain ⟨x, hx, hox⟩ := obSeq_ok_mem xs ys hs y hy
      exact ih x hx y hox
    | error e =>
      rw [hs] at h
      simp at h
  | hDict es ih =>
    intro r h
    rw [only_builtins] at h
    rw [obDict_eq_dropFailed es fun kv _ => only_builtins_ne_valueError kv.2] at h
    injection h with h
    subst h
    rw [builtinsOnlyTree, builtinsOnlyEntries_iff]
    intro kv hkv
    rw [dropFailedEntries] at hkv
    obtain ⟨kv0, hkv0, hmap⟩ := List.mem_filterMap.mp hkv
    cases hv : only_builtins kv0.2 with
    | ok v2 =>
      rw [hv] at hmap
      simp at hmap
      subst hmap
      exact ih kv0 hkv0 v2 hv
    | error e =>
      rw [hv] at hmap
      simp at hmap

/-- C1 witness: the amended invariant instantiated at a mapping with a
non-builtin key, whose sanitization succeeds. -/
theorem sanitize_result_builtins_only_witness :
    builtinsOnlyTree (.dict [(.obj "K", .prim (.int 1))]) = true :=
  sanitize_result_builtins_only (.dict [(.obj "K", .prim (.int 1))]) _
    (by simp [only_builtins, obDict])

/-- C1 counterexample: sanitizing `{CustomKey(): 1}` succeeds and
returns the mapping with its non-text (indeed non-builtin) key intact,
so the returned tree is not a `SanitizedValue` in the spec's sense —
"mapping whose keys are text" fails, and a node outside the closed set
(the custom-class key) appears in the result. -/
theorem sanitize_result_key_not_text :
    only_builtins (.dict [(.obj "K", .prim (.int 1))]) =
      .ok (.dict [(.obj "K", .prim (.int 1))]) ∧
    specSanitizedTree (.dict [(.obj "K", .prim (.int 1))]) = false := by
  constructor
  · simp [only_builtins, obDict]
  · simp [specSanitizedTree, specSanitizedEntries, isTextNode]

/-- C2 (code bug): a list, tuple or set containing a single non-builtin
element makes the whole sanitization fail with the `TypeError` raised
for that element — the `except ValueError: continue` inside the
sequence branch never matches, because the function's final raise
statement raises `TypeError` even though its own docstring (and the
comment right above the raise) say `ValueError` — instead of dropping
the element as the claim, the spec, and the docstring describe. -/
theorem sanitize_sequence_bad_element_raises :
    only_builtins (.list [.prim (.str "ok"), .obj "Custom"]) = .error .typeError ∧
    only_builtins (.tuple [.obj "Custom"]) = .error .typeError ∧
    only_builtins (.set [.obj "Custom"]) = .error .typeError := by
  refine ⟨?_, ?_, ?_⟩ <;> simp [only_builtins, obSeq]

/-- C3: a top-level value whose type is not a supported builtin, does
not subclass one, and is not a dict/list/tuple/set reaches the final
raise statement, so `only_builtins` fails with `TypeError` (the error
the spec calls `UnsupportedTypeError`), and the `safe_pickle_synonym`
setter propagates that failure while leaving the stored column
untouched. -/
theorem sanitize_unsupported_toplevel_fails :
    ∀ (cls : String) (stored : Option PyVal),
      only_builtins (.obj cls) = .error .typeError ∧
      safe_pickle_setter stored (.obj cls) = (stored, some .typeError) := by
  intro cls stored
  constructor
  · simp [only_builtins]
  · simp [safe_pickle_setter, only_builtins]

/-- C4: sanitizing any mapping succeeds, and the result keeps exactly
the entries whose values sanitize successfully — key unchanged, value
sanitized — silently dropping the whole entry otherwise. Success is
unconditional because a failing entry value always fails with
`TypeError`, which the dict loop catches. -/
theorem sanitize_dict_drops_failing_entries :
    ∀ es, only_builtins (.dict es) = .ok (.dict (dropFailedEntries es)) := by
  intro es
  rw [only_builtins,
    obDict_eq_dropFailed es fun kv _ => only_builtins_ne_valueError kv.2]

/-- C5: a value whose exact runtime type is one of the supported
primitive kinds is returned unchanged by `only_builtins`. -/
theorem sanitize_primitive_identity :
    ∀ p : Prim, only_builtins (.prim p) = .ok (.prim p) := by
  intro p
  simp [only_builtins]

/-! ## Theorems: pipe_list_synonym -/

theorem splitChar_ne_nil (c : Char) (l : List Char) : splitChar c l ≠ [] := by
  cases l with
  | nil => simp [splitChar]
  | cons x xs =>
    rw [splitChar]
    cases h : splitChar c xs with
    | nil => simp
    | cons hh t =>
      by_cases hx : x = c <;> simp [hx]

/-- Splitting a text free of the separator yields that text as the one
part. -/
theorem splitChar_not_mem {c : Char} {l : List Char} (h : c ∉ l) :
    splitChar c l = [l] := by
  induction l with
  | nil => simp [splitChar]
  | cons x xs ih =>
    have hx : x ≠ c := fun he => h (he ▸ List.mem_cons_self _ _)
    have hxs : c ∉ xs := fun hm => h (List.mem_cons_of_mem _ hm)
    rw [splitChar, ih hxs]
    simp [hx]

/-- A separator after a separator-free prefix cuts exactly there. -/
theorem splitChar_append {c : Char} {l m : List Char} (h : c ∉ l) :
    splitChar c (l ++ c :: m) = l :: splitChar c m := by
  induction l with
  | nil =>
    rw [List.nil_append, splitChar]
    cases hm : splitChar c m with
    | nil => exact absurd hm (splitChar_ne_nil c m)
    | cons hh t => simp
  | cons x xs ih =>
    have hx : x ≠ c := fun he => h (he ▸ List.mem_cons_self _ _)
    have hxs : c ∉ xs := fun hm => h (List.mem_cons_of_mem _ hm)
    rw [List.cons_append, splitChar, ih hxs]
    simp [hx]

theorem pyJoin_single (c : Char) (x : PyStr) : pyJoin c [x] = x := by
  simp [pyJoin, List.intersperse]

theorem pyJoin_cons₂ (c : Char) (x y : PyStr) (t : List PyStr) :
    pyJoin c (x :: y :: t) = x ++ c :: pyJoin c (y :: t) := by
  simp [pyJoin, List.intersperse]

/-- Splitting undoes joining on a nonempty list of separator-free
texts. -/
theorem splitChar_pyJoin {c : Char} {xs : List PyStr} (hne : xs ≠ [])
    (h : ∀ s ∈ xs, c ∉ s) : splitChar c (pyJoin c xs) = xs := by
  induction xs with
  | nil => exact absurd rfl hne
  | cons x rest ih =>
    cases rest with
    | nil =>
      rw [pyJoin_single]
      exact splitChar_not_mem (h x (List.mem_cons_self _ _))
    | cons y t =>
      rw [pyJoin_cons₂, splitChar_append (h x (List.mem_cons_self _ _)),
        ih (by simp) fun s hs => h s (List.mem_cons_of_mem _ hs)]

theorem dropWhile_eq_self_of_head? {p : Char → Bool} {l : List Char}
    (h : ∀ a, l.head? = some a → p a = false) : l.dropWhile p = l := by
  cases l with
  | nil => simp
  | cons x xs => simp [List.dropWhile_cons, h x rfl]

/-- Stripping is the identity when neither end starts with the stripped
character. -/
theorem stripChar_eq_self {c : Char} {s : List Char}
    (h1 : ∀ a, s.head? = some a → a ≠ c)
    (h2 : ∀ a, s.getLast? = some a → a ≠ c) : stripChar c s = s := by
  have e1 : s.dropWhile (· = c) = s :=
    dropWhile_eq_self_of_head? fun a ha => by simp [h1 a ha]
  have e2 : s.reverse.dropWhile (· = c) = s.reverse :=
    dropWhile_eq_self_of_head? fun a ha => by
      rw [List.head?_reverse] at ha
      simp [h2 a ha]
  rw [stripChar, e1, e2, List.reverse_reverse]

theorem pyJoin_head? (c : Char) (x : PyStr) (rest : List PyStr) (hx : x ≠ []) :
    (pyJoin c (x :: rest)).head? = x.head? := by
  cases rest with
  | nil => rw [pyJoin_single]
  | cons y t =>
    rw [pyJoin_cons₂, List.head?_append]
    cases x with
    | nil => exact absurd rfl hx
    | cons a as => simp

theorem pyJoin_concat (c : Char) (ys : List PyStr) (z : PyStr) (hys : ys ≠ []) :
    pyJoin c (ys ++ [z]) = pyJoin c ys ++ c :: z := by
  induction ys with
  | nil => exact absurd rfl hys
  | cons x rest ih =>
    cases rest with
    | nil => simp [pyJoin_cons₂, pyJoin_single]
    | cons y t =>
      calc pyJoin c ((x :: y :: t) ++ [z])
          = x ++ c :: pyJoin c (y :: (t ++ [z])) := pyJoin_cons₂ c x y (t ++ [z])
        _ = x ++ c :: pyJoin c ((y :: t) ++ [z]) := by rw [List.cons_append]
        _ = x ++ c :: (pyJoin c (y :: t) ++ c :: z) := by rw [ih (by simp)]
        _ = pyJoin c (x :: y :: t) ++ c :: z := by rw [pyJoin_cons₂]; simp

theorem pyJoin_getLast? (c : Char) (ys : List PyStr) (z : PyStr)
    (hz : z ≠ []) : (pyJoin c (ys ++ [z])).getLast? = z.getLast? := by
  cases ys with
  | nil =>
    rw [List.nil_append, pyJoin_single]
  | cons x rest =>
    rw [pyJoin_concat c (x :: rest) z (by simp)]
    rw [List.getLast?_append_of_ne_nil _ (by simp)]
    cases z with
    | nil => exact absurd rfl hz
    | cons a as => simp [List.getLast?_cons]

/-- C8 (amended): the getter returns the null-equivalent exactly when
the raw stored value is null or the empty text — the truthiness check
happens before any trimming — and otherwise returns the parts of the
trimmed value split on the separator. For a raw value consisting only
of separator characters this is the one-element list holding the empty
text, not a null/empty-equivalent result (see the counterexample). -/
theorem pipe_list_get_spec :
    (∀ raw, pipe_list_getter raw = none ↔ raw = none ∨ raw = some []) ∧
    (∀ s : PyStr, s ≠ [] →
      pipe_list_getter (some s) = some (splitChar '|' (stripChar '|' s))) := by
  constructor
  · intro raw
    cases raw with
    | none => simp [pipe_list_getter]
    | some s =>
      by_cases hs : s = [] <;> simp [pipe_list_getter, hs]
  · intro s hs
    simp [pipe_list_getter, hs]

/-- C8 witness: the amended description applied to the raw text
`"a|b"`. -/
theorem pipe_list_get_spec_witness :
    pipe_list_getter (some ['a', '|', 'b']) = some [['a'], ['b']] := by
  have h := pipe_list_get_spec.2 ['a', '|', 'b'] (by decide)
  rw [h]
  decide

/-- C8 counterexample: the raw text `"|"` trims to the empty text, so
the claim requires a null/empty-equivalent result, but the getter is
already past its truthiness check and returns `[""]` — a one-element
list, neither null nor empty. -/
theorem pipe_list_get_all_separators :
    stripChar '|' ['|'] = [] ∧
    pipe_list_getter (some ['|']) = some [[]] := by
  constructor <;> decide

/-- C9 (amended): writing a list of separator-free texts and reading it
back returns the same list, provided the list is nonempty and its first
and last elements are nonempty texts. (For the empty list, a leading
empty element or a trailing empty element the round trip fails: the
join is stored, but reading strips separators from the ends and treats
an empty stored text as null — see the counterexample.) -/
theorem pipe_list_roundtrip (xs : List PyStr)
    (hne : xs ≠ [])
    (hsep : ∀ s ∈ xs, ('|' : Char) ∉ s)
    (hhead : xs.head? ≠ some [])
    (hlast : xs.getLast? ≠ some []) :
    pipe_list_getter (some (pipe_list_setter (.seq xs))) = some xs := by
  rw [show pipe_list_setter (.seq xs) = pyJoin '|' xs from rfl]
  obtain ⟨x0, rest, rfl⟩ := List.exists_cons_of_ne_nil hne
  have hx0 : x0 ≠ [] := fun he => hhead (by simp [he])
  have hjoin_head : (pyJoin '|' (x0 :: rest)).head? = x0.head? :=
    pyJoin_head? '|' x0 rest hx0
  have hjne : pyJoin '|' (x0 :: rest) ≠ [] := by
    intro he
    rw [he] at hjoin_head
    cases x0 with
    | nil => exact hx0 rfl
    | cons a as => simp at hjoin_head
  obtain ⟨ys, zl, hconcat⟩ := (List.eq_nil_or_concat (x0 :: rest)).resolve_left hne
  rw [List.concat_eq_append] at hconcat
  have hzl : zl ≠ [] := by
    intro he
    apply hlast
    rw [hconcat, he, List.getLast?_concat]
  have hstrip : stripChar '|' (pyJoin '|' (x0 :: rest)) = pyJoin '|' (x0 :: rest) := by
    apply stripChar_eq_self
    · intro a ha
      rw [hjoin_head] at ha
      have : a ∈ x0 := List.mem_of_mem_head? ha
      exact fun he => hsep x0 (List.mem_cons_self _ _) (he ▸ this)
    · intro a ha
      rw [hconcat, pyJoin_getLast? '|' ys zl hzl] at ha
      have hmem : a ∈ zl := List.mem_of_mem_getLast? ha
      have hzmem : zl ∈ x0 :: rest := by rw [hconcat]; simp
      exact fun he => hsep zl hzmem (he ▸ hmem)
  rw [pipe_list_getter]
  rw [if_neg hjne, hstrip, splitChar_pyJoin (by simp) hsep]

/-- C9 witness: the round trip at `["a", "bc"]`. -/
theorem pipe_list_roundtrip_witness :
    pipe_list_getter (some (pipe_list_setter (.seq [['a'], ['b', 'c']]))) =
      some [['a'], ['b', 'c']] :=
  pipe_list_roundtrip [['a'], ['b', 'c']] (by decide) (by decide)
    (by decide) (by decide)

/-- C9 counterexample: the one-element list holding the empty text
contains no separator character anywhere, yet writing it stores the
empty text and reading that back yields null, not the original list. -/
theorem pipe_list_roundtrip_empty_elem :
    (∀ s ∈ [([] : PyStr)], ('|' : Char) ∉ s) ∧
    pipe_list_getter (some (pipe_list_setter (.seq [[]]))) = none := by
  constructor <;> decide

/-! ## Theorems: text_date_synonym -/

/-- C10 (amended): the setter stores a timestamp unchanged; for text it
parses with the `%Y-%m-%d` format — a four-digit year and one- or
two-digit month and day, dash-separated, forming a valid calendar
date — succeeding exactly when that parse succeeds and failing with
`FormatError` (strptime's `ValueError`) otherwise; in particular
`set("15-01-2020")` fails, and after `set("2020-01-15")` the getter
returns the timestamp for January 15 2020. (The format is not the
strict zero-padded `YYYY-MM-DD` pattern: see the counterexample.) -/
theorem text_date_spec :
    (∀ d, text_date_setter (.dt d) = .ok d) ∧
    (∀ s, strptimeYmd s = none → text_date_setter (.text s) = .error .valueError) ∧
    (∀ s d, strptimeYmd s = some d → text_date_setter (.text s) = .ok d) ∧
    text_date_setter (.text ['1', '5', '-', '0', '1', '-', '2', '0', '2', '0']) =
      .error .valueError ∧
    text_date_setter (.text ['2', '0', '2', '0', '-', '0', '1', '-', '1', '5']) =
      .ok ⟨2020, 1, 15⟩ ∧
    text_date_getter ⟨2020, 1, 15⟩ = ⟨2020, 1, 15⟩ := by
  refine ⟨fun d => rfl, fun s h => ?_, fun s d h => ?_, by rfl, by rfl, rfl⟩
  · simp [text_date_setter, h]
  · simp [text_date_setter, h]

/-- C10 witness: the setter fails on unparseable text and succeeds on a
valid date, applying the parse-equivalence parts of the theorem. -/
theorem text_date_spec_witness :
    text_date_setter (.text ['x', 'y', 'z']) = .error .valueError ∧
    text_date_setter (.text ['2', '0', '2', '0', '-', '1', '2', '-', '3', '1']) =
      .ok ⟨2020, 12, 31⟩ :=
  ⟨text_date_spec.2.1 _ (by decide), text_date_spec.2.2.1 _ _ (by decide)⟩

/-- C10 counterexample: `"2020-1-5"` does not match the exact
`YYYY-MM-DD` pattern the claim requires every accepted text to match,
yet the setter accepts it — strptime's `%m` and `%d` also match single
digits — storing January 5 2020 instead of failing with
`FormatError`. -/
theorem text_date_accepts_unpadded :
    text_date_setter (.text ['2', '0', '2', '0', '-', '1', '-', '5']) =
      .ok ⟨2020, 1, 5⟩ ∧
    matchesExactYMD ['2', '0', '2', '0', '-', '1', '-', '5'] = false := by
  exact ⟨by rfl, by decide⟩

/-! ## Theorems: CaseInsensitiveWord -/

/-- C7: two text values that agree after lower-casing compare equal
when wrapped — the constructor lower-cases text — and a wrapper
compared against a plain text of different case is also equal, because
`operate` coerces any non-wrapper operand into a wrapper (lower-casing
it) and applies the operator to the two lowered `word` values. -/
theorem case_insensitive_compare (s t : PyStr) (h : pyLower s = pyLower t) :
    CaseInsensitiveWord.operate wordBEq (CaseInsensitiveWord.make (.text s))
      (.ciw (CaseInsensitiveWord.make (.text t)).word) = true ∧
    CaseInsensitiveWord.operate wordBEq (CaseInsensitiveWord.make (.text s))
      (.text t) = true ∧
    (∀ (α : Type) (op : WordExpr → WordExpr → α) (self : CaseInsensitiveWord),
      CaseInsensitiveWord.operate op self (.text t) =
        op self.word (.lit (pyLower t))) :=
  ⟨by simp [CaseInsensitiveWord.operate, CaseInsensitiveWord.make, wordBEq, h],
   by simp [CaseInsensitiveWord.operate, CaseInsensitiveWord.make, wordBEq, h],
   fun α op self => rfl⟩

/-- C7 witness: `"Foo"` wrapped equals `"foo"` wrapped, and `"Foo"`
wrapped equals the plain text `"FOO"`. -/
theorem case_insensitive_compare_witness :
    CaseInsensitiveWord.operate wordBEq
      (CaseInsensitiveWord.make (.text ['F', 'o', 'o']))
      (.ciw (CaseInsensitiveWord.make (.text ['f', 'o', 'o'])).word) = true ∧
    CaseInsensitiveWord.operate wordBEq
      (CaseInsensitiveWord.make (.text ['F', 'o', 'o']))
      (.text ['F', 'O', 'O']) = true :=
  ⟨(case_insensitive_compare ['F', 'o', 'o'] ['f', 'o', 'o'] (by decide)).1,
   (case_insensitive_compare ['F', 'o', 'o'] ['F', 'O', 'O'] (by decide)).2.1⟩

/-! ## Theorems: QualityComparator -/

/-- The branch list of the ranking expression is keyed by the registry
names, so its lookup mirrors the registry lookup. -/
theorem quality_case_find (reg : List Quality) (s : String) :
    (quality_case reg).whens.find? (fun p => p.1 == s) =
      (qualities_get reg s).map fun q => (q.name, q.value) := by
  rw [quality_case, qualities_get, qualities_all]
  simp only []
  rw [List.find?_map]
  rfl

/-- C6: `operate(op, other)` uses `other`'s rank when it carries one,
looks text up in the quality registry — failing with `ValueError` when
the name is unknown — and fails with `TypeError` on any other operand;
on success it applies `op` between the ranking expression (the
multi-branch conditional mapping every registry name to its rank) and
the resolved rank, and evaluating that expression yields the rank of a
known stored name and the default 0 for any unrecognized stored name,
never an error. -/
theorem quality_operate_spec (α : Type) (reg : List Quality)
    (op : CaseExpr → Int → α) :
    (∀ q, QualityComparator.operate α reg op (.qualObj q) =
      .ok (op (quality_case reg) q.value)) ∧
    (∀ s q, qualities_get reg s = some q →
      QualityComparator.operate α reg op (.text s) =
        .ok (op (quality_case reg) q.value)) ∧
    (∀ s, qualities_get reg s = none →
      QualityComparator.operate α reg op (.text s) = .error .valueError) ∧
    QualityComparator.operate α reg op .otherObj = .error .typeError ∧
    (∀ s q, qualities_get reg s = some q → (quality_case reg).eval s = q.value) ∧
    (∀ s, qualities_get reg s = none → (quality_case reg).eval s = 0) := by
  refine ⟨fun q => rfl, fun s q h => ?_, fun s h => ?_, rfl,
    fun s q h => ?_, fun s h => ?_⟩
  · simp [QualityComparator.operate, h]
  · simp [QualityComparator.operate, h]
  · rw [CaseExpr.eval, quality_case_find reg s, h]
    rfl
  · rw [CaseExpr.eval, quality_case_find reg s, h]
    rfl

/-- C6 witness: with the registry {sd: 1, hd: 2, 1080p: 3} and a row
storing "hd", comparing with rank-greater-than "sd" builds the ranking
expression and evaluates true; comparing against the unknown name "xyz"
fails with ValueError; and the ranking expression evaluates to 0 at an
unrecognized stored name. -/
theorem quality_operate_spec_witness :
    QualityComparator.operate Bool [⟨"sd", 1⟩, ⟨"hd", 2⟩, ⟨"1080p", 3⟩]
      (fun e r => decide (r < e.eval "hd")) (.text "sd") = .ok true ∧
    QualityComparator.operate Bool [⟨"sd", 1⟩, ⟨"hd", 2⟩, ⟨"1080p", 3⟩]
      (fun e r => decide (r < e.eval "hd")) (.text "xyz") = .error .valueError ∧
    CaseExpr.eval (quality_case [⟨"sd", 1⟩, ⟨"hd", 2⟩, ⟨"1080p", 3⟩]) "unknown" = 0 :=
  ⟨by
    rw [(quality_operate_spec Bool [⟨"sd", 1⟩, ⟨"hd", 2⟩, ⟨"1080p", 3⟩]
      (fun e r => decide (r < e.eval "hd"))).2.1 "sd" ⟨"sd", 1⟩ (by decide)]
    rfl,
   (quality_operate_spec Bool [⟨"sd", 1⟩, ⟨"hd", 2⟩, ⟨"1080p", 3⟩]
      (fun e r => decide (r < e.eval "hd"))).2.2.1 "xyz" (by decide),
   (quality_operate_spec Bool [⟨"sd", 1⟩, ⟨"hd", 2⟩, ⟨"1080p", 3⟩]
      (fun e r => decide (r < e.eval "hd"))).2.2.2.2.2 "unknown" (by decide)⟩

end FlexgetDB
